import Mathlib

/-!
Verification of the qri logbook core against its specification.

The definitions below are a shallow embedding of the Go sources of the
`logbook` package (`Book`, its domain write operations, reference
resolution and the commit-list derivation).  Pure helper functions are
translated one-to-one; stateful methods become explicit state passing on
a `BookState` record.  Go's `int64` fields are modelled as `Int`; a Go
runtime panic (negative slice index, out-of-range access) is modelled as
`Option.none`.  Parts of the repository that the sources only call into
(the `oplog` engine's store traversal, name derivation, merging and
signature check, plus `dsref` name validation) are not under the source
tree; each such definition is modelled from the specification text and
is marked `Modelled from the spec:` in its doc comment.
-/

set_option maxRecDepth 10000

/-- Operation intent, `oplog.OpType`. Wire codes Init=1, Amend=2, Remove=3. -/
inductive OpType where
  | init
  | amend
  | remove
deriving DecidableEq, Repr

/-- Model enum from the logbook source: `AuthorModel uint32 = iota` — so
the author model is 0 and the rest follow in declaration order. -/
def AuthorModel : Nat := 0

def DatasetModel : Nat := 1

def BranchModel : Nat := 2

def CommitModel : Nat := 3

def PushModel : Nat := 4

def RunModel : Nat := 5

def ACLModel : Nat := 6

/-- `oplog.Op`: one immutable operation record. Field defaults are Go zero
values. `timestamp` and `size` are Go `int64`, modelled as `Int`. -/
structure Op where
  type : OpType
  model : Nat
  ref : String := ""
  prev : String := ""
  relations : List String := []
  name : String := ""
  authorID : String := ""
  timestamp : Int := 0
  size : Int := 0
  note : String := ""
deriving DecidableEq, Repr

/-- `dsref.Ref`: a dataset reference. -/
structure Ref where
  initID : String := ""
  username : String := ""
  profileID : String := ""
  name : String := ""
  path : String := ""
deriving DecidableEq, Repr

/-- `dsref.VersionInfo`, restricted to the fields the logbook derivation
writes. `commitTime` holds the op timestamp (Go converts it to a
`time.Time` via `time.Unix(0, ts)`, an injective mapping). -/
structure VersionInfo where
  username : String := ""
  profileID : String := ""
  name : String := ""
  path : String := ""
  commitTime : Int := 0
  bodySize : Int := 0
  commitTitle : String := ""
  runID : String := ""
  runStatus : String := ""
  runDuration : Int := 0
  published : Bool := false
deriving DecidableEq, Repr

/-- The string constant `runIDRelPrefix = "runID:"` from the source. -/
def runIDRel : String := "runID:"

/-- Modelled from the spec: `dsref.IsValidName` (the dsref validation file
is not under the source tree).  Invariant 4: a name is 1–80 characters
drawn from `[a-zA-Z0-9_-]`. -/
def isNameChar (c : Char) : Bool :=
  ('a' ≤ c && c ≤ 'z') || ('A' ≤ c && c ≤ 'Z') || ('0' ≤ c && c ≤ '9') || c = '_' || c = '-'

/-- Modelled from the spec: `dsref.IsValidName`, see `isNameChar`. -/
def isValidName (s : String) : Bool :=
  1 ≤ s.length && s.length ≤ 80 && s.toList.all isNameChar

/-- The reverse scan of `Book.latestSavePath`, translated from the source:

    case oplog.OpTypeRemove:
        removes += int(op.Size)
    case oplog.OpTypeInit, oplog.OpTypeAmend:
        if removes > 0 { removes-- }
        if removes == 0 { return op.Ref }

Note the second `if` is NOT an `else`: after the decrement reaches zero
the very op that was just counted off is returned. -/
def latestSavePathGo : Int → List Op → String
  | _, [] => ""
  | removes, op :: rest =>
    if op.model = CommitModel then
      match op.type with
      | .remove => latestSavePathGo (removes + op.size) rest
      | .init | .amend =>
        let removes1 := if removes > 0 then removes - 1 else removes
        if removes1 = 0 then op.ref else latestSavePathGo removes1 rest
    else latestSavePathGo removes rest

/-- `Book.latestSavePath` applied to a branch log's op list (the Go loop
walks indices from the end; we reverse and recurse). -/
def latestSavePath (ops : List Op) : String :=
  latestSavePathGo 0 ops.reverse

/-- Modelled from the spec: the head algorithm exactly as §4.3 states it
(`Remove`: add `op.size`; `Init`/`Amend`: if the counter is positive,
decrement and continue, else return `op.ref`).  Defined only to compare
with the source's `latestSavePath`. -/
def headPathSpecGo : Int → List Op → String
  | _, [] => ""
  | removes, op :: rest =>
    if op.model = CommitModel then
      match op.type with
      | .remove => headPathSpecGo (removes + op.size) rest
      | .init | .amend =>
        if removes > 0 then headPathSpecGo (removes - 1) rest else op.ref
    else headPathSpecGo removes rest

/-- Spec head algorithm over a branch log's ops (reverse scan). -/
def headPathSpec (ops : List Op) : String :=
  headPathSpecGo 0 ops.reverse

/-- `commitOpRunID`: first relation with the `"runID:"` lead, with that
lead removed; empty string when none. -/
def commitOpRunID (op : Op) : String :=
  match op.relations.find? (fun s => runIDRel.isPrefixOf s) with
  | some s => s.drop runIDRel.length
  | none => ""

/-- `versionInfoFromOp`. -/
def versionInfoFromOp (ref : Ref) (op : Op) : VersionInfo :=
  { username := ref.username, profileID := ref.profileID, name := ref.name,
    path := op.ref, commitTime := op.timestamp, bodySize := op.size,
    commitTitle := op.note }

/-- `runItemFromOp`. -/
def runItemFromOp (ref : Ref) (op : Op) : VersionInfo :=
  { username := ref.username, profileID := ref.profileID, name := ref.name,
    commitTime := op.timestamp, runID := op.ref, runStatus := op.note,
    runDuration := op.size }

/-- `addCommitDetailsToRunItem`. -/
def addCommitDetailsToRunItem (li : VersionInfo) (op : Op) : VersionInfo :=
  { li with commitTime := op.timestamp, commitTitle := op.note,
            bodySize := op.size, path := op.ref }

/-- Mark the last `n` accumulated entries (un)published.  The Go source
runs `for i := 1; i <= int(op.Size); i++ { refs[len(refs)-i].Published = b }`,
which touches exactly the last `n` entries. -/
def setPublishedLastN (b : Bool) (n : Nat) (refs : List VersionInfo) : List VersionInfo :=
  refs.take (refs.length - n) ++ (refs.drop (refs.length - n)).map (fun vi => { vi with published := b })

/-- One iteration of the `branchToVersionInfos` loop.  State is the
accumulated `refs` slice plus the `deleteAtEnd` counter.  `none` models a
Go runtime panic: `refs[len(refs)-1]` on an empty slice for Amend,
`refs[:len(refs)-int(op.Size)]` with a size exceeding the accumulated
count (or a negative size, whose behaviour depends on slice capacity)
for Remove, and the publish loop indexing past the front for Push. -/
def bviStep (ref : Ref) (collapseAll : Bool) : List VersionInfo × Int → Op → Option (List VersionInfo × Int)
  | (refs, del), op =>
    if op.model = CommitModel then
      match op.type with
      | .init =>
        let rid := commitOpRunID op
        match refs.getLast? with
        | some last =>
          if rid ≠ "" ∧ rid = last.runID then
            some (refs.dropLast ++ [addCommitDetailsToRunItem last op], del)
          else
            some (refs ++ [versionInfoFromOp ref op], del)
        | none => some (refs ++ [versionInfoFromOp ref op], del)
      | .amend =>
        match refs.getLast? with
        | some _ => some (refs.dropLast ++ [versionInfoFromOp ref op], 0)
        | none => none
      | .remove =>
        if collapseAll then
          if 0 ≤ op.size ∧ op.size ≤ (refs.length : Int) then
            some (refs.take (refs.length - op.size.toNat), del)
          else none
        else some (refs, del + op.size)
    else if op.model = RunModel then
      some (refs ++ [runItemFromOp ref op], del)
    else if op.model = PushModel then
      match op.type with
      | .init =>
        if op.size ≤ (refs.length : Int) then
          some (setPublishedLastN true op.size.toNat refs, del)
        else none
      | .remove =>
        if op.size ≤ (refs.length : Int) then
          some (setPublishedLastN false op.size.toNat refs, del)
        else none
      | .amend => some (refs, del)
    else some (refs, del)

/-- Fold step lifted to the panic-tracking accumulator. -/
def bviFoldStep (ref : Ref) (collapseAll : Bool) (acc : Option (List VersionInfo × Int)) (op : Op) : Option (List VersionInfo × Int) :=
  match acc with
  | none => none
  | some s => bviStep ref collapseAll s op

/-- Tail of `branchToVersionInfos`: apply the pending tail delete, reverse
newest-first, then apply `offset` and `limit` exactly as the Go code
slices (`refs[offset:]` panics for a negative offset; `refs[:limit]`
panics for a limit below -1). -/
def bviFinish (refs : List VersionInfo) (del : Int) (off lim : Int) : Option (List VersionInfo) :=
  let refs1 := if del > 0 then
      (if del < (refs.length : Int) then refs.take (refs.length - del.toNat) else [])
    else refs
  let refs2 := refs1.reverse
  let off1 := if off > (refs2.length : Int) then (refs2.length : Int) else off
  if off1 < 0 then none
  else
    let refs3 := refs2.drop off1.toNat
    if lim < (refs3.length : Int) ∧ lim ≠ -1 then
      (if lim < 0 then none else some (refs3.take lim.toNat))
    else some refs3

/-- `branchToVersionInfos` on a branch log's op list.  Returns `none`
exactly when the Go function panics. -/
def branchToVersionInfos (ops : List Op) (ref : Ref) (off lim : Int) (collapseAll : Bool) : Option (List VersionInfo) :=
  match ops.foldl (bviFoldStep ref collapseAll) (some ([], 0)) with
  | none => none
  | some (refs, del) => bviFinish refs del off lim

/-- A conservative well-formedness scan for `branchToVersionInfos`: it
tracks a lower bound on the number of accumulated entries and demands
every Amend find at least one entry and every collapsing Remove / Push
size fit below that bound.  `some lb` means no step of the derivation
can panic and at least `lb` entries remain. -/
def bviLB (collapseAll : Bool) : List Op → Nat → Option Nat
  | [], lb => some lb
  | op :: rest, lb =>
    if op.model = CommitModel then
      match op.type with
      | .init => bviLB collapseAll rest (if commitOpRunID op = "" then lb + 1 else max lb 1)
      | .amend => if 1 ≤ lb then bviLB collapseAll rest lb else none
      | .remove =>
        if collapseAll then
          if 0 ≤ op.size ∧ op.size ≤ (lb : Int) then bviLB collapseAll rest (lb - op.size.toNat) else none
        else bviLB collapseAll rest lb
    else if op.model = RunModel then bviLB collapseAll rest (lb + 1)
    else if op.model = PushModel then
      match op.type with
      | .init | .remove => if 0 ≤ op.size ∧ op.size ≤ (lb : Int) then bviLB collapseAll rest lb else none
      | .amend => bviLB collapseAll rest lb
    else bviLB collapseAll rest lb

mutual
/-- `oplog.Log`: ordered ops, child logs, optional signature.  `LogList`
is a specialised list so that all forest traversals below are structural
mutual recursions that the kernel can evaluate. -/
inductive Log : Type where
  | mk (ops : List Op) (logs : LogList) (sig : Option String) : Log
/-- Children of a `Log`, see `Log`. -/
inductive LogList : Type where
  | nil : LogList
  | cons (hd : Log) (tl : LogList) : LogList
end

/-- Convert an ordinary list of logs (convenient for literals). -/
def LogList.ofList : List Log → LogList
  | [] => .nil
  | l :: ls => .cons l (LogList.ofList ls)

/-- Number of child logs. -/
def LogList.length : LogList → Nat
  | .nil => 0
  | .cons _ ls => 1 + ls.length

/-- Append one log at the end, as Go's `append(l.Logs, child)` does. -/
def LogList.push (c : Log) : LogList → LogList
  | .nil => .cons c .nil
  | .cons l ls => .cons l (ls.push c)

/-- The raw op list of a log. -/
def Log.opsOf : Log → List Op
  | .mk ops _ _ => ops

/-- The child logs of a log. -/
def Log.kidsOf : Log → LogList
  | .mk _ kids _ => kids

/-- `oplog.Log.FirstOpAuthorID`: the `authorID` of `ops[0]`, empty for an
(invariant-violating) empty log.  `Log.Author()` returns the same value. -/
def Log.firstOpAuthorID : Log → String
  | .mk [] _ _ => ""
  | .mk (o :: _) _ _ => o.authorID

/-- Modelled from the spec: the log identifier is a deterministic hash of
the Init op (§4.1, base-58 SHA-256 of its canonical encoding).  The hash
itself is opaque, so it is a parameter `hash` everywhere below. -/
def Log.logId (hash : Op → String) : Log → String
  | .mk [] _ _ => ""
  | .mk (o :: _) _ _ => hash o

/-- Modelled from the spec: the derived current name — "the `name` of the
latest Init-or-Amend op on the model that matches the log's root model"
(§3, derived properties; the oplog engine is not under the source tree). -/
def Log.currentName : Log → String
  | .mk [] _ _ => ""
  | .mk (o0 :: rest) _ _ =>
    (o0 :: rest).foldl
      (fun acc op =>
        if op.model = o0.model ∧ (op.type = OpType.init ∨ op.type = OpType.amend) then op.name else acc)
      ""

/-- Modelled from the spec: the engine append rule — "`Append(op)` pushes
`op` to `ops`" (§4.1). -/
def appendLogOp (op : Op) : Log → Log
  | .mk ops kids sig => .mk (ops ++ [op]) kids sig

/-- `oplog.Log.AddChild`, appending a child log. -/
def Log.addChild (c : Log) : Log → Log
  | .mk ops kids sig => .mk ops (kids.push c) sig

/-- First log in a list whose derived current name matches (used by the
name-path locator, §4.1: "case-sensitive segment match against each
log's derived current name"). -/
def findByName (n : String) : LogList → Option Log
  | .nil => none
  | .cons l ls => if Log.currentName l = n then some l else findByName n ls

/-- Modelled from the spec: the by-name-path locator backing
`Logstore.HeadRef` (§4.1, lookup mode 2).  Descends one name segment at
a time; `none` is the store's `ErrNotFound`. -/
def headRef (path : List String) (forest : LogList) : Option Log :=
  match path with
  | [] => none
  | [n] => findByName n forest
  | n :: rest =>
    match findByName n forest with
    | some l => headRef rest l.kidsOf
    | none => none

mutual
/-- Modelled from the spec: the by-id locator backing `Logstore.Get`
(§4.1, lookup mode 1: "every log is uniquely reachable by the id
assigned to its Init op").  Depth-first, first match wins. -/
def getLog (hash : Op → String) (id : String) : Log → Option Log
  | .mk ops kids sig =>
    if Log.logId hash (.mk ops kids sig) = id then some (.mk ops kids sig)
    else getIn hash id kids

/-- By-id search across a list of sibling logs, see `getLog`. -/
def getIn (hash : Op → String) (id : String) : LogList → Option Log
  | .nil => none
  | .cons l ls =>
    match getLog hash id l with
    | some r => some r
    | none => getIn hash id ls
end

mutual
/-- Functional image of a Go mutation through a pointer produced by the
by-id locator: rewrite the first log whose id matches, leave the rest.
The boolean reports whether the target was found. -/
def updLog (hash : Op → String) (id : String) (f : Log → Log) : Log → Log × Bool
  | .mk ops kids sig =>
    if Log.logId hash (.mk ops kids sig) = id then (f (.mk ops kids sig), true)
    else
      match updIn hash id f kids with
      | (kids1, b) => (.mk ops kids1 sig, b)

/-- See `updLog`. -/
def updIn (hash : Op → String) (id : String) (f : Log → Log) : LogList → LogList × Bool
  | .nil => (.nil, false)
  | .cons l ls =>
    match updLog hash id f l with
    | (l1, true) => (.cons l1 ls, true)
    | (_, false) =>
      match updIn hash id f ls with
      | (ls1, b) => (.cons l ls1, b)
end

/-- Apply `f` at the unique log with the given id (no-op when absent). -/
def updateById (hash : Op → String) (id : String) (f : Log → Log) (forest : LogList) : LogList :=
  (updIn hash id f forest).1

/-- Rewrite the first log with the given current name. -/
def mapFirstByName (n : String) (f : Log → Log) : LogList → LogList
  | .nil => .nil
  | .cons l ls => if Log.currentName l = n then .cons (f l) ls else .cons l (mapFirstByName n f ls)

/-- Drop the first log with the given current name. -/
def removeFirstByName (n : String) : LogList → LogList
  | .nil => .nil
  | .cons l ls => if Log.currentName l = n then ls else .cons l (removeFirstByName n ls)

/-- Modelled from the spec: `Logstore.RemoveLog` — physically remove the
log at a name path (§4.2 `RemoveLog(ref)`); absent paths are a no-op
(the Book discards the store's return value). -/
def removeLogPath : List String → LogList → LogList
  | [], forest => forest
  | [n], forest => removeFirstByName n forest
  | n :: rest, forest =>
    mapFirstByName n (fun l =>
      match l with
      | .mk ops kids sig => .mk ops (removeLogPath rest kids) sig) forest

/-- Error values of the logbook package (each constructor corresponds to
one `fmt.Errorf`/sentinel in the source). -/
inductive Err where
  | notFound
  | refNotFound
  | accessDenied
  | nameRequired
  | invalidName (n : String)
  | alreadyExists (n : String)
  | removingStrayLog (e : Err)
  | branchCount (n : Nat)
  | runIDMismatch
  | divergentHistory
  | signatureInvalid
  | putFailed (msg : String)
deriving DecidableEq, Repr

/-- Domain event types the Book publishes. -/
inductive EventType where
  | datasetNameInit
  | datasetRename
  | datasetDeleteAll
  | datasetCommitChange
deriving DecidableEq, Repr

/-- `event.DsChange` payload, restricted to the fields the Book sets. -/
structure DsChange where
  initID : String := ""
  username : String := ""
  profileID : String := ""
  prettyName : String := ""
  topIndex : Int := 0
  headRef : String := ""
  info : Option VersionInfo := none
deriving DecidableEq, Repr

/-- One published bus event. -/
structure Event where
  etype : EventType
  change : DsChange
deriving DecidableEq, Repr

/-- `run.State`, restricted to the fields `appendTransformRun` reads. -/
structure RunState where
  id : String := ""
  number : Int := 0
  duration : Int := 0
  status : String := ""
  startTime : Option Int := none
deriving DecidableEq, Repr

/-- `dataset.Commit`, restricted to the fields the Book reads.  The Go
code dereferences `ds.Commit` unconditionally, so it is not optional. -/
structure DsCommit where
  runID : String := ""
  timestamp : Int := 0
  title : String := ""
deriving DecidableEq, Repr

/-- `dataset.Dataset`, restricted to the fields the Book reads.
`structLen` is `ds.Structure.Length` when `ds.Structure` is non-nil. -/
structure Dataset where
  path : String := ""
  previousPath : String := ""
  commit : DsCommit := {}
  structLen : Option Int := none
deriving DecidableEq, Repr

/-- External capabilities of a Book: the opaque id hash (§4.1), the
filesystem put used by `book.save` (serialisation + encryption are
bijective on well-formed blobs, so the blob is modelled as the forest
itself), and the injectable `NewTimestamp` clock. -/
structure Env where
  hashOp : Op → String
  fsPut : LogList → Except String String
  now : Int

/-- In-memory and persisted state of a `logbook.Book`: the store's
top-level logs, the author identity, the filesystem location, the last
successfully persisted blob, and the trace of published bus events. -/
structure BookState where
  logs : LogList
  authorID : String
  authorName : String
  fsLocation : String := ""
  persisted : Option LogList := none
  events : List Event := []

/-- `book.save`: serialise + encrypt the store and write it through the
filesystem, updating the location on success.  A failed put leaves every
in-memory structure as it was and reports the error. -/
def bookSave (env : Env) (st : BookState) : Except Err BookState :=
  match env.fsPut st.logs with
  | .error e => .error (.putFailed e)
  | .ok loc => .ok { st with fsLocation := loc, persisted := some st.logs }

/-- `book.hasWriteAccess`: `log.Ops[0].AuthorID != book.authorID` fails
with `ErrAccessDenied`.  (On an invariant-violating empty log the Go
expression would panic; `firstOpAuthorID` returns `""` there.) -/
def hasWriteAccess (authorID : String) (l : Log) : Bool :=
  l.firstOpAuthorID = authorID

/-- The Amend op `WriteDatasetRename` appends. -/
def datasetRenameOp (newName : String) (ts : Int) : Op :=
  { type := .amend, model := DatasetModel, name := newName, timestamp := ts }

/-- `Book.WriteDatasetRename`: validate the name, locate the dataset log
by id, check write access, append the Amend op, publish `DatasetRename`
(before saving, as the source does), then persist. -/
def WriteDatasetRename (env : Env) (st : BookState) (initID newName : String) : Except Err Unit × BookState :=
  if ¬ isValidName newName then (.error (.invalidName newName), st)
  else
    match getIn env.hashOp initID st.logs with
    | none => (.error .notFound, st)
    | some dsLog =>
      if hasWriteAccess st.authorID dsLog then
        let logs1 := updateById env.hashOp initID (appendLogOp (datasetRenameOp newName env.now)) st.logs
        let st1 := { st with
          logs := logs1
          events := st.events ++ [⟨.datasetRename, { initID := initID, prettyName := newName }⟩] }
        match bookSave env st1 with
        | .error e => (.error e, st1)
        | .ok st2 => (.ok (), st2)
      else (.error .accessDenied, st)

/-- The Init op of a fresh dataset log (`WriteDatasetInit`). -/
def datasetInitOp (authorID name : String) (ts : Int) : Op :=
  { type := .init, model := DatasetModel, authorID := authorID, name := name, timestamp := ts }

/-- The Init op of a fresh "main" branch log (`WriteDatasetInit`). -/
def branchInitOp (authorID : String) (ts : Int) : Op :=
  { type := .init, model := BranchModel, authorID := authorID, name := "main", timestamp := ts }

/-- The "blank log" test of `WriteDatasetInit`:
`len(Ops) == 1 && len(Logs) == 1 && len(Logs[0].Ops) == 1`. -/
def strandedLog (l : Log) : Bool :=
  match l with
  | .mk ops (.cons (.mk bops _ _) .nil) _ => ops.length = 1 ∧ bops.length = 1
  | _ => false

/-- `Book.WriteDatasetInit`: reject empty/invalid names; if the name
already resolves, remove the log if it is stranded (via `RemoveLog`,
which also saves) and otherwise fail with `AlreadyExists`; then build
the dataset log with its single "main" branch, attach it to the author
log, publish `DatasetNameInit` (before saving, as the source does) and
persist.  The source calls `NewTimestamp()` separately for the dataset
and branch ops; both are modelled as `env.now`.  On a failed final save
Go returns the fresh initID alongside the error; the `Except` carries
only the error. -/
def WriteDatasetInit (env : Env) (st : BookState) (dsName : String) : Except Err String × BookState :=
  if dsName = "" then (.error .nameRequired, st)
  else if ¬ isValidName dsName then (.error (.invalidName dsName), st)
  else
    let cleared : Except Err Unit × BookState :=
      if st.authorName ≠ "" then
        match headRef [st.authorName, dsName] st.logs with
        | some dsLog =>
          if strandedLog dsLog then
            let st1 := { st with logs := removeLogPath [st.authorName, dsName] st.logs }
            match bookSave env st1 with
            | .error e => (.error (.removingStrayLog e), st1)
            | .ok st2 => (.ok (), st2)
          else (.error (.alreadyExists dsName), st)
        | none => (.ok (), st)
      else (.ok (), st)
    match cleared with
    | (.error e, st1) => (.error e, st1)
    | (.ok _, st1) =>
      match getIn env.hashOp st.authorID st1.logs with
      | none => (.error .notFound, st1)
      | some ulog =>
        let dsOp := datasetInitOp st.authorID dsName env.now
        let newDs := Log.mk [dsOp] (.cons (.mk [branchInitOp st.authorID env.now] .nil none) .nil) none
        let logs1 := updateById env.hashOp st.authorID (Log.addChild newDs) st1.logs
        let initID := env.hashOp dsOp
        let st2 := { st1 with
          logs := logs1
          events := st1.events ++ [⟨.datasetNameInit,
            { initID := initID, username := st.authorName
              profileID := ulog.firstOpAuthorID, prettyName := dsName }⟩] }
        match bookSave env st2 with
        | .error e => (.error e, st2)
        | .ok st3 => (.ok initID, st3)

/-- `appendTransformRun`'s op: a Run-model Init op carrying the run id,
run number (as decimal string name), duration, status and start time
(Go leaves the timestamp zero when `StartTime` is nil). -/
def transformRunOp (rs : RunState) : Op :=
  { type := .init, model := RunModel, ref := rs.id, name := toString rs.number,
    size := rs.duration, note := rs.status, timestamp := rs.startTime.getD 0 }

/-- `appendVersionSave`'s op: a Commit-model Init op carrying path,
previous path, commit timestamp, title, body size (zero when
`ds.Structure` is nil) and, when `ds.Commit.RunID` is non-empty, the
single relation `"runID:" + runID`. -/
def versionSaveOp (ds : Dataset) : Op :=
  { type := .init, model := CommitModel, ref := ds.path, prev := ds.previousPath,
    timestamp := ds.commit.timestamp, note := ds.commit.title,
    size := ds.structLen.getD 0,
    relations := if ds.commit.runID ≠ "" then [runIDRel ++ ds.commit.runID] else [] }

/-- Append ops to the single branch child of a dataset log (the image of
`blog.Append` through the pointer returned by `book.branchLog`; callers
establish that exactly one child exists). -/
def appendBranchOps (ops : List Op) : Log → Log
  | .mk dops (.cons (.mk bops bkids bsig) rest) sig =>
    .mk dops (.cons (.mk (bops ++ ops) bkids bsig) rest) sig
  | l => l

/-- Tail of `WriteVersionSave`: persist, then (only after a successful
save) publish `DatasetCommitChange` with the top index and new head.
`info` carries the modelled `dsref.ConvertDatasetToVersionInfo` fields. -/
def finishVersionSave (env : Env) (st : BookState) (logs1 : LogList) (initID : String) (ds : Dataset) (topIndex : Int) : Except Err Unit × BookState :=
  let st1 := { st with logs := logs1 }
  match bookSave env st1 with
  | .error e => (.error e, st1)
  | .ok st2 =>
    let info : VersionInfo :=
      { path := ds.path, commitTime := ds.commit.timestamp, commitTitle := ds.commit.title,
        runID := ds.commit.runID, bodySize := ds.structLen.getD 0 }
    let st3 := { st2 with
      events := st2.events ++ [⟨.datasetCommitChange,
        { initID := initID, topIndex := topIndex, headRef := ds.path, info := some info }⟩] }
    (.ok (), st3)

/-- `Book.WriteVersionSave`: locate the branch log (`book.branchLog`
requires the dataset log to have exactly one child), check write access,
then — when a run state is supplied — require `rs.ID == ds.Commit.RunID`
and append the Run op, then append the Commit Init op, persist and
publish.  The in-memory appends are NOT rolled back when the save fails. -/
def WriteVersionSave (env : Env) (st : BookState) (initID : String) (ds : Dataset) (rs : Option RunState) : Except Err Unit × BookState :=
  match getIn env.hashOp initID st.logs with
  | none => (.error .notFound, st)
  | some dsLog =>
    match dsLog.kidsOf with
    | .cons blog .nil =>
      if hasWriteAccess st.authorID blog then
        match rs with
        | some r =>
          if r.id ≠ ds.commit.runID then (.error .runIDMismatch, st)
          else
            let logs1 := updateById env.hashOp initID (appendBranchOps [transformRunOp r, versionSaveOp ds]) st.logs
            finishVersionSave env st logs1 initID ds ((blog.opsOf.length : Int) + 2 - 1)
        | none =>
          let logs1 := updateById env.hashOp initID (appendBranchOps [versionSaveOp ds]) st.logs
          finishVersionSave env st logs1 initID ds ((blog.opsOf.length : Int) + 1 - 1)
      else (.error .accessDenied, st)
    | kids => (.error (.branchCount kids.length), st)

/-- `book.branchLog`: fetch the dataset log by id and return its single
branch child, failing when the child count differs from one. -/
def branchLogOf (env : Env) (st : BookState) (initID : String) : Except Err Log :=
  match getIn env.hashOp initID st.logs with
  | none => .error .notFound
  | some dsLog =>
    match dsLog.kidsOf with
    | .cons blog .nil => .ok blog
    | kids => .error (.branchCount kids.length)

/-- Second half of `Book.ResolveRef`: populate `profileID` (when empty)
with the first-op authorID of the log found under the branch's author
id, reusing the already-fetched branch log when available. -/
def resolveProfileID (env : Env) (st : BookState) (initID : String) (ref : Ref) (cached : Option Log) : Except Err (String × Ref) :=
  if ref.profileID = "" then
    let blogE := match cached with
      | some b => Except.ok b
      | none => branchLogOf env st initID
    match blogE with
    | .error e => .error e
    | .ok blog =>
      match getIn env.hashOp blog.firstOpAuthorID st.logs with
      | none => .error .notFound
      | some authorLog => .ok ("", { ref with profileID := authorLog.firstOpAuthorID })
  else .ok ("", ref)

/-- `Book.ResolveRef`: resolve `(username, name)` through the store's
name-path locator (`RefToInitID`; any failure becomes `ErrRefNotFound`),
record the log id, fill an empty `path` from `latestSavePath` on the
branch log, fill an empty `profileID` from the owning author log, and
return the empty address on success. -/
def ResolveRef (env : Env) (st : BookState) (ref : Ref) : Except Err (String × Ref) :=
  match headRef [ref.username, ref.name] st.logs with
  | none => .error .refNotFound
  | some dsLog =>
    let initID := dsLog.logId env.hashOp
    let ref1 := { ref with initID := initID }
    if ref1.path = "" then
      match branchLogOf env st initID with
      | .error e => .error e
      | .ok blog =>
        resolveProfileID env st initID { ref1 with path := latestSavePath blog.opsOf } (some blog)
    else resolveProfileID env st initID ref1 none

/-- Boolean prefix test on op lists (merge monotonicity, §3 invariant 7). -/
def opsPrefixOf : List Op → List Op → Bool
  | [], _ => true
  | _ :: _, [] => false
  | a :: as, b :: bs => if a = b then opsPrefixOf as bs else false

mutual
/-- Modelled from the spec: merging an incoming log into the local log
with the same identifier (§4.1 Merge): keep the longer op sequence when
one extends the other as a prefix, fail with `DivergentHistory`
otherwise, and merge children recursively by id.  The local signature is
retained. -/
def mergeLogPair (hash : Op → String) : Log → Log → Except Err Log
  | .mk aops akids asig, .mk bops bkids _bsig =>
    if bops.length ≤ aops.length then
      if opsPrefixOf bops aops then
        match mergeChildren hash akids bkids with
        | .error e => .error e
        | .ok kids => .ok (.mk aops kids asig)
      else .error .divergentHistory
    else
      if opsPrefixOf aops bops then
        match mergeChildren hash akids bkids with
        | .error e => .error e
        | .ok kids => .ok (.mk bops kids asig)
      else .error .divergentHistory
termination_by _ b => (sizeOf b, 0)

/-- Fold `mergeChildOne` over the incoming children, see `mergeLogPair`. -/
def mergeChildren (hash : Op → String) (locals : LogList) : LogList → Except Err LogList
  | .nil => .ok locals
  | .cons b bs =>
    match mergeChildOne hash locals b with
    | .error e => .error e
    | .ok locals1 => mergeChildren hash locals1 bs
termination_by bs => (sizeOf bs, 0)

/-- Merge one incoming child into the local children by id, inserting at
the end when no local child matches, see `mergeLogPair`. -/
def mergeChildOne (hash : Op → String) (locals : LogList) (b : Log) : Except Err LogList :=
  match locals with
  | .nil => .ok (.cons b .nil)
  | .cons l ls =>
    if Log.logId hash l = Log.logId hash b then
      match mergeLogPair hash l b with
      | .error e => .error e
      | .ok m => .ok (.cons m ls)
    else
      match mergeChildOne hash ls b with
      | .error e => .error e
      | .ok ls1 => .ok (.cons l ls1)
termination_by (sizeOf b, 1 + sizeOf locals)
end

/-- Modelled from the spec: `Logstore.MergeLog` (§4.1 Merge) — locate the
incoming log's id in the forest; merge in place when present, otherwise
insert (the spec's natural-parent placement needs a parent pointer the
incoming log does not carry; absent logs are inserted at the top level). -/
def storeMergeLog (hash : Op → String) (forest : LogList) (inc : Log) : Except Err LogList :=
  match getIn hash (Log.logId hash inc) forest with
  | none => .ok (forest.push inc)
  | some tgt =>
    match mergeLogPair hash tgt inc with
    | .error e => .error e
    | .ok merged => .ok (updateById hash (Log.logId hash inc) (fun _ => merged) forest)

/-- `Book.MergeLog`: verify the incoming log against the sender's public
key first (`lg.Verify(sender.AuthorPubKey())`, modelled as the abstract
predicate `verify` per §3 invariant 6), and only on success delegate to
the store merge and persist. -/
def MergeLog (env : Env) (verify : Log → Bool) (st : BookState) (lg : Log) : Except Err Unit × BookState :=
  if verify lg then
    match storeMergeLog env.hashOp st.logs lg with
    | .error e => (.error e, st)
    | .ok logs1 =>
      let st1 := { st with logs := logs1 }
      match bookSave env st1 with
      | .error e => (.error e, st1)
      | .ok st2 => (.ok (), st2)
  else (.error .signatureInvalid, st)

/-- A Commit Init op with only a path, as written by a plain save. -/
def commitInitOp (r : String) : Op :=
  { type := .init, model := CommitModel, ref := r }

/-- A Commit Remove tombstone for `n` revisions. -/
def commitRemoveOp (n : Int) : Op :=
  { type := .remove, model := CommitModel, size := n }

/-- A Push Init op publishing `n` revisions to a remote. -/
def pushInitOp (n : Int) (remote : String) : Op :=
  { type := .init, model := PushModel, size := n, relations := [remote] }

/-- A Push Remove op unpublishing `n` revisions from a remote. -/
def pushRemoveOp (n : Int) (remote : String) : Op :=
  { type := .remove, model := PushModel, size := n, relations := [remote] }

/-- Branch ops after `save(P1) save(P2) save(P3) delete(1)`. -/
def c1ops : List Op :=
  [commitInitOp "P1", commitInitOp "P2", commitInitOp "P3", commitRemoveOp 1]

/-- Branch ops after a further `delete(2)`. -/
def c1ops2 : List Op := c1ops ++ [commitRemoveOp 2]

/-- Concrete opaque-id hash for witnesses: the op's name. -/
def hashName : Op → String := fun op => op.name

/-- User init op of the fixture author "alice". -/
def uopA : Op := { type := .init, model := AuthorModel, name := "alice", authorID := "alice-pid" }

/-- Dataset init op of the fixture dataset "movies". -/
def dsopMovies : Op := { type := .init, model := DatasetModel, name := "movies", authorID := "alice" }

/-- Branch init op of the fixture "main" branch. -/
def bropMain : Op := branchInitOp "alice" 0

/-- A commit on the fixture branch. -/
def commitQmA : Op := { type := .init, model := CommitModel, ref := "QmA", note := "t1" }

/-- Fixture branch log with no commits. -/
def brMain : Log := .mk [bropMain] .nil none

/-- Fixture branch log with one commit. -/
def brMainA : Log := .mk [bropMain, commitQmA] .nil none

/-- Fixture dataset log, stranded (init ops only). -/
def dsMovies : Log := .mk [dsopMovies] (.cons brMain .nil) none

/-- Fixture dataset log with one commit. -/
def dsMoviesA : Log := .mk [dsopMovies] (.cons brMainA .nil) none

/-- Fixture user log holding the stranded dataset. -/
def ulogA : Log := .mk [uopA] (.cons dsMovies .nil) none

/-- Fixture user log holding the committed dataset. -/
def ulogAA : Log := .mk [uopA] (.cons dsMoviesA .nil) none

/-- Fixture user log with no datasets. -/
def ulogEmpty : Log := .mk [uopA] .nil none

/-- Fixture book over the stranded dataset. -/
def stA : BookState := { logs := .cons ulogA .nil, authorID := "alice", authorName := "alice" }

/-- Fixture book over the committed dataset. -/
def stAA : BookState := { logs := .cons ulogAA .nil, authorID := "alice", authorName := "alice" }

/-- Fixture book with no datasets. -/
def stEmpty : BookState := { logs := .cons ulogEmpty .nil, authorID := "alice", authorName := "alice" }

/-- Fixture book whose author does not own the stored logs. -/
def stBob : BookState := { logs := .cons ulogA .nil, authorID := "bob", authorName := "bob" }

/-- Environment whose filesystem put always succeeds. -/
def envOk : Env := { hashOp := hashName, fsPut := fun _ => .ok "loc1", now := 99 }

/-- Environment whose filesystem put always fails. -/
def envFail : Env := { hashOp := hashName, fsPut := fun _ => .error "boom", now := 99 }

/-- Branch ops for the publish-toggle scenario:
`save save push(2,"r1") delete_push(2,"r1")`. -/
def c7ops : List Op :=
  [bropMain, commitInitOp "Qa", commitInitOp "Qb", pushInitOp 2 "r1", pushRemoveOp 2 "r1"]

/-- Same scenario stopped after the push. -/
def c7opsPush : List Op :=
  [bropMain, commitInitOp "Qa", commitInitOp "Qb", pushInitOp 2 "r1"]

/-- C1: the spec's head algorithm says a Commit Init/Amend met while the
removes counter is positive is decremented away and skipped, giving head
`P2` after `save(P1) save(P2) save(P3) delete(1)` and `""` after a
further `delete(2)`.  The source's `latestSavePath` instead returns the
ref of the very op that consumed the last pending remove: it yields `P3`
(and `P1` after the further delete), diverging from the spec algorithm
(`headPathSpec`) and from the sibling derivations (`branchToVersionInfos`
and `addReferencedPaths` both drop `op.Size` entries per tombstone). -/
theorem c1_head_path_code_bug :
    latestSavePath c1ops = "P3" ∧ headPathSpec c1ops = "P2"
  ∧ latestSavePath c1ops2 = "P1" ∧ headPathSpec c1ops2 = ""
  ∧ (branchToVersionInfos c1ops {} 0 (-1) true).map (fun l => l.map (·.path)) = some ["P2", "P1"] := by
  refine ⟨rfl, rfl, rfl, rfl, rfl⟩

/-- C7: in the commit-list derivation a Push Init marks the last
`op.size` entries published and a Push Remove unmarks them again: after
`save save push(2,"r1")` both entries report `published = true`, and
after the further `delete_push(2,"r1")` both report `published = false`. -/
theorem c7_publish_toggle :
    (branchToVersionInfos c7opsPush {} 0 (-1) true).map (fun l => l.map (·.published)) = some [true, true]
  ∧ (branchToVersionInfos c7ops {} 0 (-1) true).map (fun l => l.map (·.published)) = some [false, false] := by
  refine ⟨rfl, rfl⟩

/-- C2 counterexample: the derivation is not total — on a branch log
whose single op is a Commit Amend with no prior accumulated entry the Go
code evaluates `refs[len(refs)-1]` on an empty slice and panics
(modelled as `none`), for any offset/limit, refuting the claim at the
very case it lists. -/
theorem c2_totality_counterexample :
    branchToVersionInfos [{ type := .amend, model := CommitModel }] {} 0 (-1) true = none := by
  rfl

/-- C4: `Book.MergeLog` verifies the incoming log against the sender's
public key before touching anything; when verification fails it returns
`SignatureInvalid` and the book state — in-memory forest, persisted
blob, locations and event trace — is exactly the input state. -/
theorem c4_merge_rejects_invalid_signature (env : Env) (verify : Log → Bool) (st : BookState) (lg : Log)
    (hbad : verify lg = false) :
    MergeLog env verify st lg = (.error .signatureInvalid, st) := by
  simp [MergeLog, hbad]

/-- C4 witness: a concrete rejected merge. -/
theorem c4_merge_rejects_invalid_signature_witness :
    MergeLog envOk (fun _ => false) stA ulogAA = (.error .signatureInvalid, stA) :=
  c4_merge_rejects_invalid_signature envOk (fun _ => false) stA ulogAA rfl

/-- Helper: a successful `bookSave` changes only the location and the
persisted blob. -/
theorem bookSave_ok_projs (env : Env) (st st2 : BookState) (h : bookSave env st = .ok st2) :
    st2.logs = st.logs ∧ st2.events = st.events ∧ st2.authorID = st.authorID := by
  unfold bookSave at h
  cases hp : env.fsPut st.logs with
  | error e => rw [hp] at h; exact Except.noConfusion h
  | ok loc =>
    rw [hp] at h
    cases h
    exact ⟨rfl, rfl, rfl⟩

/-- Helper: `finishVersionSave` never touches the forest again — the
resulting state's logs are exactly the appended forest, whether or not
the save succeeded. -/
theorem finishVersionSave_logs (env : Env) (st : BookState) (logs1 : LogList) (initID : String) (ds : Dataset) (topIndex : Int) :
    ((finishVersionSave env st logs1 initID ds topIndex).2).logs = logs1 := by
  unfold finishVersionSave bookSave
  cases hp : env.fsPut logs1 <;> simp [hp]

/-- Helper: when the filesystem put fails, `finishVersionSave` publishes
nothing and reports the put error. -/
theorem finishVersionSave_put_error (env : Env) (st : BookState) (logs1 : LogList) (initID : String) (ds : Dataset) (topIndex : Int) (msg : String)
    (hput : env.fsPut logs1 = .error msg) :
    finishVersionSave env st logs1 initID ds topIndex
      = (.error (.putFailed msg), { st with logs := logs1 }) := by
  unfold finishVersionSave bookSave
  simp [hput]

/-- C5: the write-access rule — a domain write appends to the target log
if and only if the log's `ops[0].authorID` equals the book's own author
id.  For `WriteDatasetRename` (dataset-log target): a differing root
author yields `AccessDenied` with the state untouched, while a matching
one applies the Amend append at the located log.  For `WriteVersionSave`
(branch-log target) a differing root author likewise yields
`AccessDenied` with no mutation. -/
theorem c5_write_access_iff (env : Env) (st : BookState) (initID newName : String) (dsLog : Log) (ds : Dataset) (rs : Option RunState)
    (hvalid : isValidName newName = true)
    (hget : getIn env.hashOp initID st.logs = some dsLog) :
    (dsLog.firstOpAuthorID ≠ st.authorID →
       WriteDatasetRename env st initID newName = (.error .accessDenied, st))
  ∧ (dsLog.firstOpAuthorID = st.authorID →
       ((WriteDatasetRename env st initID newName).2).logs
         = updateById env.hashOp initID (appendLogOp (datasetRenameOp newName env.now)) st.logs)
  ∧ (∀ blog, dsLog.kidsOf = .cons blog .nil → blog.firstOpAuthorID ≠ st.authorID →
       WriteVersionSave env st initID ds rs = (.error .accessDenied, st)) := by
  refine ⟨?_, ?_, ?_⟩
  · intro hacc
    simp [WriteDatasetRename, hvalid, hget, hasWriteAccess, hacc]
  · intro hacc
    simp only [WriteDatasetRename, hvalid, hget, hasWriteAccess, hacc]
    simp only [not_true_eq_false, if_false, decide_eq_true_eq, if_pos rfl]
    cases hs : bookSave env { st with
        logs := updateById env.hashOp initID (appendLogOp (datasetRenameOp newName env.now)) st.logs
        events := st.events ++ [⟨.datasetRename, { initID := initID, prettyName := newName }⟩] } with
    | error e => simp
    | ok st2 => simpa using (bookSave_ok_projs env _ st2 hs).1
  · intro blog hkids hacc
    simp [WriteVersionSave, hget, hkids, hasWriteAccess, hacc]

/-- C5 witness: a book owned by "bob" denied on a log rooted by "alice". -/
theorem c5_write_access_iff_witness :
    isValidName "b" = true
  ∧ getIn envOk.hashOp "movies" stBob.logs = some dsMovies
  ∧ WriteDatasetRename envOk stBob "movies" "b" = (.error .accessDenied, stBob) :=
  ⟨by decide, rfl,
    (c5_write_access_iff envOk stBob "movies" "b" dsMovies {} none (by decide) rfl).1 (by decide)⟩

/-- C8 counterexample: a persistence failure does NOT roll back the
in-memory append.  On a concrete book, `WriteDatasetRename` against a
store whose put always fails returns the put error, yet the dataset log
in the in-memory forest now carries the appended Amend op (and nothing
was ever persisted) — the forest is not "exactly as it was before". -/
theorem c8_rollback_counterexample :
    (WriteDatasetRename envFail stA "movies" "better").1 = .error (.putFailed "boom")
  ∧ ((getIn hashName "movies" ((WriteDatasetRename envFail stA "movies" "better").2).logs).map Log.opsOf
      = some [dsopMovies, datasetRenameOp "better" 99])
  ∧ ((getIn hashName "movies" stA.logs).map Log.opsOf = some [dsopMovies])
  ∧ ((WriteDatasetRename envFail stA "movies" "better").2).persisted = none := by
  refine ⟨rfl, rfl, rfl, rfl⟩

/-- C8 as amended: when persisting fails, the write returns the error
but the in-memory append is retained: the resulting forest is the input
forest with the op applied at the located log, the event was already
published, and only `fsLocation`/`persisted` stay as before (this holds
for `WriteDatasetRename`; `WriteRemotePush`/`WriteRemoteDelete` are the
only ops with an explicit rollback closure, invoked by the caller). -/
theorem c8_no_rollback (env : Env) (st : BookState) (initID newName : String) (dsLog : Log) (msg : String)
    (hvalid : isValidName newName = true)
    (hget : getIn env.hashOp initID st.logs = some dsLog)
    (hacc : dsLog.firstOpAuthorID = st.authorID)
    (hput : ∀ ls, env.fsPut ls = .error msg) :
    WriteDatasetRename env st initID newName
      = (.error (.putFailed msg),
         { st with
           logs := updateById env.hashOp initID (appendLogOp (datasetRenameOp newName env.now)) st.logs
           events := st.events ++ [⟨.datasetRename, { initID := initID, prettyName := newName }⟩] }) := by
  simp [WriteDatasetRename, hvalid, hget, hasWriteAccess, hacc, bookSave, hput]

/-- C8 witness: the amended no-rollback fact at a concrete input. -/
theorem c8_no_rollback_witness :
    isValidName "better" = true
  ∧ WriteDatasetRename envFail stA "movies" "better"
      = (.error (.putFailed "boom"),
         { stA with
           logs := updateById hashName "movies" (appendLogOp (datasetRenameOp "better" 99)) stA.logs
           events := [⟨.datasetRename, { initID := "movies", prettyName := "better" }⟩] }) :=
  ⟨by decide,
    c8_no_rollback envFail stA "movies" "better" dsMovies "boom" (by decide) rfl rfl (fun _ => rfl)⟩

/-- C10 counterexample: with a non-nil run state whose id is empty and a
dataset whose `Commit.RunID` is also empty the precondition holds
(`"" == ""`), two ops are appended (Run, then Commit Init), but the
Commit op carries NO relations — in particular nothing of the shape
`"runID:" ++ id` — because `appendVersionSave` only writes the relation
for a non-empty `Commit.RunID`.  This refutes the claim's relations
clause at an explicit input. -/
theorem c10_runid_counterexample :
    (WriteVersionSave envOk stA "movies" { path := "QmB" } (some {})).1 = .ok ()
  ∧ ((getIn hashName "movies" ((WriteVersionSave envOk stA "movies" { path := "QmB" } (some {})).2).logs).map
       (fun l => match l.kidsOf with | .cons b _ => b.opsOf | .nil => []))
      = some [bropMain, transformRunOp {}, versionSaveOp { path := "QmB" }]
  ∧ (versionSaveOp { path := "QmB" }).relations = []
  ∧ ¬ (runIDRel ++ "") ∈ (versionSaveOp { path := "QmB" }).relations := by
  refine ⟨rfl, rfl, rfl, by decide⟩

/-- C10 as amended: `WriteVersionSave` with a non-nil run state requires
`rs.ID == ds.Commit.RunID` — on a mismatch it returns an error before
appending or persisting, leaving the state untouched; on a match it
appends exactly two ops to the branch log, a Run op followed by a Commit
Init op, and the Commit op's relations contain `"runID:" ++ id` exactly
when the shared id is non-empty (an empty id yields no relation). -/
theorem c10_version_save_runid (env : Env) (st : BookState) (initID : String) (ds : Dataset) (r : RunState) (dsLog blog : Log)
    (hget : getIn env.hashOp initID st.logs = some dsLog)
    (hkids : dsLog.kidsOf = .cons blog .nil)
    (hacc : blog.firstOpAuthorID = st.authorID) :
    (∀ (env2 : Env) (st2 : BookState) (id2 : String) (ds2 : Dataset) (r2 : RunState),
        r2.id ≠ ds2.commit.runID →
        ∃ e, WriteVersionSave env2 st2 id2 ds2 (some r2) = (.error e, st2))
  ∧ (r.id = ds.commit.runID →
       ((WriteVersionSave env st initID ds (some r)).2).logs
         = updateById env.hashOp initID (appendBranchOps [transformRunOp r, versionSaveOp ds]) st.logs)
  ∧ (r.id = ds.commit.runID → r.id ≠ "" →
       (versionSaveOp ds).relations = [runIDRel ++ r.id]) := by
  refine ⟨?_, ?_, ?_⟩
  · intro env2 st2 id2 ds2 r2 hne
    cases hg : getIn env2.hashOp id2 st2.logs with
    | none => exact ⟨.notFound, by simp [WriteVersionSave, hg]⟩
    | some dsLog2 =>
      cases hk : dsLog2.kidsOf with
      | nil => exact ⟨.branchCount 0, by simp [WriteVersionSave, hg, hk, LogList.length]⟩
      | cons blog2 rest2 =>
        cases rest2 with
        | cons l2 ls2 =>
          exact ⟨.branchCount (LogList.cons blog2 (LogList.cons l2 ls2)).length,
            by simp [WriteVersionSave, hg, hk]⟩
        | nil =>
          by_cases hw : blog2.firstOpAuthorID = st2.authorID
          · exact ⟨.runIDMismatch, by simp [WriteVersionSave, hg, hk, hasWriteAccess, hw, hne]⟩
          · exact ⟨.accessDenied, by simp [WriteVersionSave, hg, hk, hasWriteAccess, hw]⟩
  · intro hmatch
    simp only [WriteVersionSave, hget, hkids, hasWriteAccess, hacc, hmatch, ne_eq,
      not_true_eq_false, if_false, decide_eq_true_eq, if_pos rfl]
    exact finishVersionSave_logs env st _ initID ds _
  · intro hmatch hne
    simp [versionSaveOp, ← hmatch, hne]

/-- C10 witness: a matching non-empty run id appends Run + Commit with
the `"runID:"` relation. -/
theorem c10_version_save_runid_witness :
    getIn envOk.hashOp "movies" stA.logs = some dsMovies
  ∧ ((WriteVersionSave envOk stA "movies" { path := "QmB", commit := { runID := "r1" } } (some { id := "r1" })).2).logs
      = updateById hashName "movies"
          (appendBranchOps [transformRunOp { id := "r1" },
                            versionSaveOp { path := "QmB", commit := { runID := "r1" } }]) stA.logs
  ∧ (versionSaveOp { path := "QmB", commit := { runID := "r1" } }).relations = ["runID:r1"] :=
  ⟨rfl,
    (c10_version_save_runid envOk stA "movies" { path := "QmB", commit := { runID := "r1" } }
      { id := "r1" } dsMovies brMain rfl rfl rfl).2.1 rfl,
    by simpa using (c10_version_save_runid envOk stA "movies" { path := "QmB", commit := { runID := "r1" } }
      { id := "r1" } dsMovies brMain rfl rfl rfl).2.2 rfl (by decide)⟩

/-- Helper: a valid name is non-empty. -/
theorem validName_ne (n : String) (h : isValidName n = true) : n ≠ "" := by
  intro he
  subst he
  exact absurd h (by decide)

/-- C9 counterexample: `WriteDatasetInit` publishes `DatasetNameInit`
BEFORE calling `book.save`.  On a concrete book whose store put always
fails, the operation returns the persist error and nothing has ever been
persisted, yet the event was published — refuting "an event is never
published before or without a successful persist". -/
theorem c9_event_counterexample :
    (WriteDatasetInit envFail stEmpty "movies").1 = .error (.putFailed "boom")
  ∧ ((WriteDatasetInit envFail stEmpty "movies").2).events
      = [⟨.datasetNameInit,
          { initID := "movies", username := "alice", profileID := "alice-pid", prettyName := "movies" }⟩]
  ∧ ((WriteDatasetInit envFail stEmpty "movies").2).persisted = none := by
  refine ⟨rfl, rfl, rfl⟩

/-- C9 as amended: only `WriteVersionSave` publishes its event
(`DatasetCommitChange`) strictly after a successful persist — when every
put fails it publishes nothing on any input.  `WriteDatasetInit` (like
`WriteDatasetRename`/`WriteDatasetDelete`) publishes its event before
persisting: under the same failing store it still appends the
`DatasetNameInit` event while returning the persist error. -/
theorem c9_event_order (env : Env) (st : BookState) (initID dsName : String) (ds : Dataset) (msg : String)
    (hput : ∀ ls, env.fsPut ls = .error msg) :
    (∀ rs, ((WriteVersionSave env st initID ds rs).2).events = st.events)
  ∧ (isValidName dsName = true → st.authorName ≠ "" →
     headRef [st.authorName, dsName] st.logs = none →
     ∀ ulog, getIn env.hashOp st.authorID st.logs = some ulog →
       (WriteDatasetInit env st dsName).1 = .error (.putFailed msg)
     ∧ ((WriteDatasetInit env st dsName).2).events
         = st.events ++ [⟨.datasetNameInit,
             { initID := env.hashOp (datasetInitOp st.authorID dsName env.now)
               username := st.authorName
               profileID := ulog.firstOpAuthorID
               prettyName := dsName }⟩]) := by
  constructor
  · intro rs
    cases hg : getIn env.hashOp initID st.logs with
    | none => simp [WriteVersionSave, hg]
    | some dsLog2 =>
      cases hk : dsLog2.kidsOf with
      | nil => simp [WriteVersionSave, hg, hk]
      | cons blog2 rest2 =>
        cases rest2 with
        | cons l2 ls2 => simp [WriteVersionSave, hg, hk]
        | nil =>
          by_cases hw : blog2.firstOpAuthorID = st.authorID
          · cases rs with
            | none =>
              simp only [WriteVersionSave, hg, hk, hasWriteAccess, hw, decide_eq_true_eq, if_pos rfl]
              rw [finishVersionSave_put_error env st _ initID ds _ msg (hput _)]
              simp
            | some r2 =>
              by_cases hne : r2.id ≠ ds.commit.runID
              · simp [WriteVersionSave, hg, hk, hasWriteAccess, hw, hne]
              · simp only [WriteVersionSave, hg, hk, hasWriteAccess, hw, decide_eq_true_eq,
                  if_pos rfl, hne, if_false]
                rw [finishVersionSave_put_error env st _ initID ds _ msg (hput _)]
                simp
          · simp [WriteVersionSave, hg, hk, hasWriteAccess, hw]
  · intro hvalid huser hhr ulog hulog
    simp [WriteDatasetInit, validName_ne dsName hvalid, hvalid, huser, hhr, hulog, bookSave, hput]

/-- C9 witness: the amended ordering facts at a concrete book. -/
theorem c9_event_order_witness :
    ((WriteVersionSave envFail stA "movies" { path := "QmB" } none).2).events = stA.events
  ∧ (WriteDatasetInit envFail stEmpty "movies").1 = .error (.putFailed "boom")
  ∧ ((WriteDatasetInit envFail stEmpty "movies").2).events
      = stEmpty.events ++ [⟨.datasetNameInit,
          { initID := "movies", username := "alice", profileID := "alice-pid", prettyName := "movies" }⟩] :=
  ⟨(c9_event_order envFail stA "movies" "zz" { path := "QmB" } "boom" (fun _ => rfl)).1 none,
   ((c9_event_order envFail stEmpty "zz" "movies" {} "boom" (fun _ => rfl)).2
      (by decide) (by decide) rfl ulogEmpty rfl).1,
   ((c9_event_order envFail stEmpty "zz" "movies" {} "boom" (fun _ => rfl)).2
      (by decide) (by decide) rfl ulogEmpty rfl).2⟩

/-- C3: `ResolveRef` on a reference whose `(username, name)` resolves to
a dataset log (with its single branch, and with the branch author's log
present, per the structural invariants) records the log id in
`ref.initID`, fills `ref.path` from the head derivation only when it was
empty, fills `ref.profileID` from the first-op authorID of the owning
author log only when it was empty, and returns the empty address with no
error; a reference that resolves to no log yields `ErrRefNotFound`. -/
theorem c3_resolve_ref (env : Env) (st : BookState) (r : Ref) (ds blog ulog : Log)
    (hds : headRef [r.username, r.name] st.logs = some ds)
    (hkids : ds.kidsOf = .cons blog .nil)
    (hget : getIn env.hashOp (ds.logId env.hashOp) st.logs = some ds)
    (hulog : getIn env.hashOp blog.firstOpAuthorID st.logs = some ulog) :
    ResolveRef env st r
      = .ok ("", { r with
          initID := ds.logId env.hashOp
          path := if r.path = "" then latestSavePath blog.opsOf else r.path
          profileID := if r.profileID = "" then ulog.firstOpAuthorID else r.profileID })
  ∧ (∀ r2 : Ref, headRef [r2.username, r2.name] st.logs = none →
       ResolveRef env st r2 = .error .refNotFound) := by
  constructor
  · simp only [ResolveRef, hds]
    by_cases hp : r.path = ""
    · simp only [hp, if_pos rfl, branchLogOf, hget, hkids, resolveProfileID]
      by_cases hpid : r.profileID = ""
      · simp [hpid, hulog]
      · simp [hpid]
    · simp only [hp, if_neg hp, resolveProfileID]
      by_cases hpid : r.profileID = ""
      · simp [hpid, branchLogOf, hget, hkids, hulog]
      · simp [hpid]
  · intro r2 h2
    simp [ResolveRef, h2]

/-- C3 witness: resolving `alice/movies` against the fixture forest. -/
theorem c3_resolve_ref_witness :
    headRef ["alice", "movies"] stAA.logs = some dsMoviesA
  ∧ ResolveRef envOk stAA { username := "alice", name := "movies" }
      = .ok ("", { initID := "movies", username := "alice", profileID := "alice-pid",
                   name := "movies", path := "QmA" }) :=
  ⟨rfl, by
    have h := (c3_resolve_ref envOk stAA { username := "alice", name := "movies" }
      dsMoviesA brMainA ulogAA rfl rfl rfl rfl).1
    simpa using h⟩

/-- C6: when a dataset name already resolves to an existing log,
`WriteDatasetInit` fails with `AlreadyExists` — unless the existing log
is stranded (dataset log and its single branch log hold one op each), in
which case the stranded log is removed first and the init succeeds,
attaching to the author log a fresh dataset log that carries one branch
log named "main" and returning its (non-empty) id.  Stated over a
single-author forest whose user log carries the book's name and id. -/
theorem c6_dataset_init (env : Env) (st : BookState) (uop : Op) (urest : List Op) (ukids : LogList) (usig : Option String) (dsName loc : String) (ex : Log)
    (hlogs : st.logs = .cons (.mk (uop :: urest) ukids usig) .nil)
    (hvalid : isValidName dsName = true)
    (huser : st.authorName ≠ "")
    (hname : Log.currentName (.mk (uop :: urest) ukids usig) = st.authorName)
    (hhash : env.hashOp uop = st.authorID)
    (hex : findByName dsName ukids = some ex)
    (hput : ∀ ls, env.fsPut ls = .ok loc)
    (hnz : env.hashOp (datasetInitOp st.authorID dsName env.now) ≠ "") :
    (strandedLog ex = false →
       WriteDatasetInit env st dsName = (.error (.alreadyExists dsName), st))
  ∧ (strandedLog ex = true →
       WriteDatasetInit env st dsName
         = (.ok (env.hashOp (datasetInitOp st.authorID dsName env.now)),
            { logs := .cons (.mk (uop :: urest)
                ((removeFirstByName dsName ukids).push
                  (.mk [datasetInitOp st.authorID dsName env.now]
                       (.cons (.mk [branchInitOp st.authorID env.now] .nil none) .nil) none)) usig) .nil
              authorID := st.authorID
              authorName := st.authorName
              fsLocation := loc
              persisted := some (.cons (.mk (uop :: urest)
                ((removeFirstByName dsName ukids).push
                  (.mk [datasetInitOp st.authorID dsName env.now]
                       (.cons (.mk [branchInitOp st.authorID env.now] .nil none) .nil) none)) usig) .nil)
              events := st.events ++ [⟨.datasetNameInit,
                { initID := env.hashOp (datasetInitOp st.authorID dsName env.now)
                  username := st.authorName
                  profileID := uop.authorID
                  prettyName := dsName }⟩] })
     ∧ env.hashOp (datasetInitOp st.authorID dsName env.now) ≠ ""
     ∧ Log.currentName (.mk [datasetInitOp st.authorID dsName env.now]
         (.cons (.mk [branchInitOp st.authorID env.now] .nil none) .nil) none) = dsName
     ∧ Log.currentName (.mk [branchInitOp st.authorID env.now] .nil none) = "main") := by
  constructor
  · intro hstr
    simp [WriteDatasetInit, validName_ne dsName hvalid, hvalid, huser, hlogs, headRef,
      findByName, Log.kidsOf, hname, hex, hstr]
  · intro hstr
    refine ⟨?_, hnz, by simp [Log.currentName, datasetInitOp], by simp [Log.currentName, branchInitOp]⟩
    simp [WriteDatasetInit, validName_ne dsName hvalid, hvalid, huser, hlogs, headRef,
      findByName, Log.kidsOf, hname, hex, hstr, removeLogPath, mapFirstByName, bookSave, hput,
      getIn, getLog, Log.logId, hhash, updateById, updIn, updLog, Log.addChild,
      Log.firstOpAuthorID]

/-- C6 witness: a stranded `movies` log is replaced and the init returns
the fresh non-empty id. -/
theorem c6_dataset_init_witness :
    strandedLog dsMovies = true
  ∧ strandedLog dsMoviesA = false
  ∧ (WriteDatasetInit envOk stA "movies").1 = .ok "movies" :=
  ⟨rfl, rfl, by
    have h := ((c6_dataset_init envOk stA uopA [] (.cons dsMovies .nil) none "movies" "loc1" dsMovies
      rfl (by decide) (by decide) rfl rfl rfl (fun _ => rfl) (by decide)).2 rfl).1
    rw [h]
    rfl⟩

/-- Helper: marking the last `n` entries preserves the length. -/
theorem setPublishedLastN_length (b : Bool) (n : Nat) (refs : List VersionInfo) :
    (setPublishedLastN b n refs).length = refs.length := by
  simp [setPublishedLastN]

/-- Helper: a `some` verdict of the `bviLB` scan guarantees the fold of
`branchToVersionInfos` cannot panic, and the final bound carries over to
the accumulated length. -/
theorem bviFold_some (ref : Ref) (coll : Bool) :
    ∀ (ops : List Op) (refs : List VersionInfo) (del : Int) (lb lbf : Nat),
      bviLB coll ops lb = some lbf → lb ≤ refs.length →
      ∃ refs2 del2,
        List.foldl (bviFoldStep ref coll) (some (refs, del)) ops = some (refs2, del2)
        ∧ lbf ≤ refs2.length := by
  intro ops
  induction ops with
  | nil =>
    intro refs del lb lbf h hlen
    refine ⟨refs, del, rfl, ?_⟩
    simp only [bviLB, Option.some.injEq] at h
    omega
  | cons op rest ih =>
    intro refs del lb lbf h hlen
    rw [List.foldl_cons]
    by_cases hcm : op.model = CommitModel
    · cases ht : op.type with
      | init =>
        simp only [bviLB, hcm, ht, if_true, eq_self_iff_true] at h
        by_cases hrid : commitOpRunID op = ""
        · rw [if_pos hrid] at h
          cases hl : refs.getLast? with
          | none =>
            have hstep : bviFoldStep ref coll (some (refs, del)) op
                = some (refs ++ [versionInfoFromOp ref op], del) := by
              simp [bviFoldStep, bviStep, hcm, ht, hl]
            rw [hstep]
            exact ih _ del (lb + 1) lbf h (by simp; omega)
          | some last =>
            have hstep : bviFoldStep ref coll (some (refs, del)) op
                = some (refs ++ [versionInfoFromOp ref op], del) := by
              simp [bviFoldStep, bviStep, hcm, ht, hl, hrid]
            rw [hstep]
            exact ih _ del (lb + 1) lbf h (by simp; omega)
        · rw [if_neg hrid] at h
          cases hl : refs.getLast? with
          | none =>
            have hstep : bviFoldStep ref coll (some (refs, del)) op
                = some (refs ++ [versionInfoFromOp ref op], del) := by
              simp [bviFoldStep, bviStep, hcm, ht, hl]
            rw [hstep]
            refine ih _ del _ lbf h ?_
            simp [sup_le_iff]
            omega
          | some last =>
            have hpos : 0 < refs.length := by
              cases refs with
              | nil => simp at hl
              | cons a as => simp
            by_cases hmerge : commitOpRunID op ≠ "" ∧ commitOpRunID op = last.runID
            · have hstep : bviFoldStep ref coll (some (refs, del)) op
                  = some (refs.dropLast ++ [addCommitDetailsToRunItem last op], del) := by
                simp only [bviFoldStep, bviStep, hcm, ht, hl, if_true, eq_self_iff_true]
                rw [if_pos hmerge]
              rw [hstep]
              refine ih _ del _ lbf h ?_
              simp [sup_le_iff]
              omega
            · have hstep : bviFoldStep ref coll (some (refs, del)) op
                  = some (refs ++ [versionInfoFromOp ref op], del) := by
                simp only [bviFoldStep, bviStep, hcm, ht, hl, if_true, eq_self_iff_true]
                rw [if_neg hmerge]
              rw [hstep]
              refine ih _ del _ lbf h ?_
              simp [sup_le_iff]
              omega
      | amend =>
        simp only [bviLB, hcm, ht, if_true, eq_self_iff_true] at h
        by_cases hlb : 1 ≤ lb
        · rw [if_pos hlb] at h
          cases hl : refs.getLast? with
          | none =>
            exfalso
            cases refs with
            | nil => simp at hlen; omega
            | cons a as => simp at hl
          | some last =>
            have hpos : 0 < refs.length := by
              cases refs with
              | nil => simp at hl
              | cons a as => simp
            have hstep : bviFoldStep ref coll (some (refs, del)) op
                = some (refs.dropLast ++ [versionInfoFromOp ref op], 0) := by
              simp [bviFoldStep, bviStep, hcm, ht, hl]
            rw [hstep]
            refine ih _ 0 lb lbf h ?_
            simp
            omega
        · rw [if_neg hlb] at h
          exact absurd h (by simp)
      | remove =>
        simp only [bviLB, hcm, ht, if_true, eq_self_iff_true] at h
        cases coll with
        | true =>
          rw [if_pos rfl] at h
          by_cases hsz : 0 ≤ op.size ∧ op.size ≤ (lb : Int)
          · rw [if_pos hsz] at h
            have hsz2 : op.size ≤ (refs.length : Int) := by
              calc op.size ≤ (lb : Int) := hsz.2
                _ ≤ (refs.length : Int) := by exact_mod_cast hlen
            have hstep : bviFoldStep ref true (some (refs, del)) op
                = some (refs.take (refs.length - op.size.toNat), del) := by
              simp [bviFoldStep, bviStep, hcm, ht, hsz.1, hsz2]
            rw [hstep]
            refine ih _ del _ lbf h ?_
            have h1 : op.size.toNat ≤ lb := Int.toNat_le.mpr hsz.2
            simp
            omega
          · rw [if_neg hsz] at h
            exact absurd h (by simp)
        | false =>
          rw [if_neg (by simp)] at h
          have hstep : bviFoldStep ref false (some (refs, del)) op
              = some (refs, del + op.size) := by
            simp [bviFoldStep, bviStep, hcm, ht]
          rw [hstep]
          exact ih refs (del + op.size) lb lbf h hlen
    · by_cases hrun : op.model = RunModel
      · rw [show bviLB coll (op :: rest) lb = bviLB coll rest (lb + 1) from by
          simp [bviLB, hcm, hrun, CommitModel, RunModel]] at h
        have hstep : bviFoldStep ref coll (some (refs, del)) op
            = some (refs ++ [runItemFromOp ref op], del) := by
          simp [bviFoldStep, bviStep, hcm, hrun, CommitModel, RunModel]
        rw [hstep]
        exact ih _ del (lb + 1) lbf h (by simp; omega)
      · by_cases hpush : op.model = PushModel
        · cases ht : op.type with
          | init =>
            by_cases hsz : 0 ≤ op.size ∧ op.size ≤ (lb : Int)
            · rw [show bviLB coll (op :: rest) lb = bviLB coll rest lb from by
                simp [bviLB, hcm, hrun, hpush, ht, hsz.1, hsz.2, CommitModel, RunModel, PushModel]] at h
              have hsz2 : op.size ≤ (refs.length : Int) := by
                calc op.size ≤ (lb : Int) := hsz.2
                  _ ≤ (refs.length : Int) := by exact_mod_cast hlen
              have hstep : bviFoldStep ref coll (some (refs, del)) op
                  = some (setPublishedLastN true op.size.toNat refs, del) := by
                simp [bviFoldStep, bviStep, hcm, hrun, hpush, ht, hsz2, CommitModel, RunModel, PushModel]
              rw [hstep]
              refine ih _ del lb lbf h ?_
              rw [setPublishedLastN_length]
              exact hlen
            · rw [show bviLB coll (op :: rest) lb = none from by
                simp [bviLB, hcm, hrun, hpush, ht, hsz, CommitModel, RunModel, PushModel]] at h
              exact absurd h (by simp)
          | remove =>
            by_cases hsz : 0 ≤ op.size ∧ op.size ≤ (lb : Int)
            · rw [show bviLB coll (op :: rest) lb = bviLB coll rest lb from by
                simp [bviLB, hcm, hrun, hpush, ht, hsz.1, hsz.2, CommitModel, RunModel, PushModel]] at h
              have hsz2 : op.size ≤ (refs.length : Int) := by
                calc op.size ≤ (lb : Int) := hsz.2
                  _ ≤ (refs.length : Int) := by exact_mod_cast hlen
              have hstep : bviFoldStep ref coll (some (refs, del)) op
                  = some (setPublishedLastN false op.size.toNat refs, del) := by
                simp [bviFoldStep, bviStep, hcm, hrun, hpush, ht, hsz2, CommitModel, RunModel, PushModel]
              rw [hstep]
              refine ih _ del lb lbf h ?_
              rw [setPublishedLastN_length]
              exact hlen
            · rw [show bviLB coll (op :: rest) lb = none from by
                simp [bviLB, hcm, hrun, hpush, ht, hsz, CommitModel, RunModel, PushModel]] at h
              exact absurd h (by simp)
          | amend =>
            rw [show bviLB coll (op :: rest) lb = bviLB coll rest lb from by
              simp [bviLB, hcm, hrun, hpush, ht, CommitModel, RunModel, PushModel]] at h
            have hstep : bviFoldStep ref coll (some (refs, del)) op
                = some (refs, del) := by
              simp [bviFoldStep, bviStep, hcm, hrun, hpush, ht, CommitModel, RunModel, PushModel]
            rw [hstep]
            exact ih refs del lb lbf h hlen
        · rw [show bviLB coll (op :: rest) lb = bviLB coll rest lb from by
            simp [bviLB, hcm, hrun, hpush]] at h
          have hstep : bviFoldStep ref coll (some (refs, del)) op
              = some (refs, del) := by
            simp [bviFoldStep, bviStep, hcm, hrun, hpush]
          rw [hstep]
          exact ih refs del lb lbf h hlen

/-- Helper: the finishing slice logic is total for a non-negative offset
and a limit of at least -1. -/
theorem bviFinish_some (refs : List VersionInfo) (del off lim : Int)
    (hoff : 0 ≤ off) (hlim : -1 ≤ lim) :
    (bviFinish refs del off lim).isSome = true := by
  simp only [bviFinish]
  split_ifs <;> simp_all <;> omega

/-- C2 as amended: the commit-list derivation is deterministic (it is a
function), and it is total on branch logs that satisfy the `bviLB`
well-formedness scan — every Commit Amend sees at least one accumulated
entry and every collapsing Commit Remove / Push size is between 0 and
the accumulated count — provided `offset ≥ 0` and `limit ≥ -1`.  Outside
these bounds the Go code panics (see the counterexample). -/
theorem c2_totality_wf (ops : List Op) (ref : Ref) (off lim : Int) (coll : Bool) (lbf : Nat)
    (hwf : bviLB coll ops 0 = some lbf) (hoff : 0 ≤ off) (hlim : -1 ≤ lim) :
    (branchToVersionInfos ops ref off lim coll).isSome = true := by
  obtain ⟨refs2, del2, hfold, _⟩ :=
    bviFold_some ref coll ops [] 0 0 lbf hwf (by simp)
  unfold branchToVersionInfos
  rw [hfold]
  exact bviFinish_some refs2 del2 off lim hoff hlim

/-- C2 witness: the well-formed publish-toggle log derives successfully. -/
theorem c2_totality_wf_witness :
    bviLB true c7ops 0 = some 2
  ∧ (branchToVersionInfos c7ops {} 0 (-1) true).isSome = true :=
  ⟨rfl, c2_totality_wf c7ops {} 0 (-1) true 2 rfl (by decide) (by decide)⟩
